import Mathlib

/-!
Verification development for `cgls_land.py` (CGL_download_facilitator).

The file shallow-embeds the three cores of the program:
* the manifest-line parser and the incremental sort inside
  `Session.load_collection` (source lines 84-123),
* the catalog resolution phase of `Collection.download`
  (source lines 179-228, including the in-place table mutation),
* the download manager `Collection._get_file` together with the
  aggregation loop of `Collection.download` (source lines 241-293).

Dates are modeled as `Nat` (only their order matters; `pd.Timestamp`
values are totally ordered).  Machine-level concerns (actual sockets,
threads, byte buffers) are abstracted: the network is a map from url to
a response record, the disk is a map from path to file size.
-/

/-- Platform path separator (`os.path.join` / `os.sep`); the host is
POSIX, so `/`. -/
def pathSep : String := "/"

/-- One parsed manifest row, mirroring the columns built at source lines
98-115: `name`, `int_path`, `file_name`, `url`, `sensor`, `version`,
optional `rt`, `date`.  The `rt` field is `some tag` exactly when the
line's `name` contains `-RT` (then the table has an `rt` column). -/
structure Record where
  name : String
  int_path : String
  file_name : String
  url : String
  sensor : String
  version : String
  rt : Option String
  date : Nat
deriving Repr, DecidableEq

/-- One download task, the `[url, file_name, int_path]` triple appended
to `download_list` (source lines 197-198, 206, 216, 227-228). -/
structure DownloadTask where
  url : String
  file_name : String
  int_path : String
deriving Repr, DecidableEq

/-- Projection of a table row to its download task
(`[['url', 'file_name', 'int_path']].values.tolist()`). -/
def Record.toTask (r : Record) : DownloadTask :=
  ⟨r.url, r.file_name, r.int_path⟩

/-- Splitting of a character list at every occurrence of `sep`,
implementing Python's `str.split(sep)` for a one-character separator:
empty pieces are kept, the empty string yields `[""]`. -/
def splitChars (sep : Char) : List Char → List (List Char)
  | [] => [[]]
  | c :: cs =>
    let r := splitChars sep cs
    if c == sep then [] :: r
    else
      match r with
      | [] => [[c]]
      | s :: ss => (c :: s) :: ss

/-- Python `line.split(sep)` for a one-character separator. -/
def pySplit (s : String) (sep : Char) : List String :=
  (splitChars sep s.data).map (fun l => String.mk l)

/-- Python `s[-n:]`: the last `n` characters (the whole string when it
is shorter than `n`). -/
def pyTakeRight (s : String) (n : Nat) : String :=
  String.mk (s.data.drop (s.data.length - n))

/-- Python `pat in s` on character lists: `pat` occurs contiguously. -/
def containsSeq (l pat : List Char) : Bool :=
  match l with
  | [] => pat.isEmpty
  | _ :: rest => pat.isPrefixOf l || containsSeq rest pat

/-- The per-line field extraction of `Session.load_collection` (source
lines 89-97):

* `exploded = line.split('/')`;
* `int_path = os.path.join(*exploded[-8:-1])` — Python's slice
  `[-8:-1]` is `exploded.dropLast.drop (exploded.length - 8)` (for a
  list of length `n` it is the elements at positions `max 0 (n-8)` to
  `n-2`), joined with the separator;
* `name = exploded[-2]`, `file_name = exploded[-1]`;
* `name_components = name.split('_')`,
  `sensor = name_components[-2]`,
  `version = name_components[-1][-5:]`;
* if `'-RT' in name` then `RT = name_components[0][-3:]`;
* `url` stores the full line.

The record date comes from `re.search(r"\d\d\d\d/\d\d/\d\d", line)`
followed by `pd.to_datetime` (source lines 88, 100); the regex itself
is not in any claim, so the extracted date is passed in as `dateVal`. -/
def parseLine (line : String) (dateVal : Nat) : Record :=
  let exploded := pySplit line '/'
  let int_path := String.intercalate pathSep ((exploded.dropLast).drop (exploded.length - 8))
  let name := (exploded.dropLast).getLastD ""
  let name_components := pySplit name '_'
  let sensor := (name_components.dropLast).getLastD ""
  let version := pyTakeRight (name_components.getLastD "") 5
  let rt := if containsSeq name.data "-RT".data then
      some (pyTakeRight (name_components.headD "") 3)
    else none
  { name := name, int_path := int_path, file_name := exploded.getLastD "",
    url := line, sensor := sensor, version := version, rt := rt, date := dateVal }

/-- The local sub-path as the specification words it: "the 8 segments
immediately preceding the final two segments, joined with the platform
path separator" — i.e. positions `n-10 .. n-3` of the split line.  This
definition follows the spec text, to be compared with the source-derived
`parseLine`. -/
def specSubPath (line : String) : String :=
  let exploded := pySplit line '/'
  String.intercalate pathSep ((exploded.dropLast.dropLast).drop (exploded.length - 10))

/-- The observation table of one `Collection`.  `hasRt` records whether
the DataFrame has the `rt` column (true iff the manifest lines were
real-time); `dateIsIndex` records whether `set_index(['date'])` has
already moved `date` from the columns into the row index (it starts
false after parsing and is set — in place — by `Collection.download`,
source line 193). -/
structure ObsTable where
  hasRt : Bool
  dateIsIndex : Bool
  rows : List Record
deriving Repr, DecidableEq

/-- Column labels of the DataFrame, in construction order (source lines
101-102 / 111-112): the `rt` column exists only for real-time schemas,
and `date` is a column only while it has not been moved to the index. -/
def ObsTable.colNames (t : ObsTable) : List String :=
  ["name", "int_path", "file_name", "url", "sensor", "version"]
    ++ (if t.hasRt then ["rt"] else [])
    ++ (if t.dateIsIndex then [] else ["date"])

/-- The mutable state of a `Collection` that `download` touches: the
observation table and the cached `start_date` / `end_date`
(source lines 128-137 initialise them to `None`). -/
structure Collection where
  table : ObsTable
  start_date : Option Nat
  end_date : Option Nat
deriving Repr, DecidableEq

/-- Errors the resolution phase of `Collection.download` can raise. -/
inductive PyError where
  /-- `self.observation_table.RT` (source line 185): the DataFrame has
  no `RT` method or column — the column is lowercase `rt` — so Python
  attribute lookup raises `AttributeError`. -/
  | attributeErrorRT
  /-- `drop_duplicates(subset=['date'])` (line 187) or
  `set_index(['date'])` (line 193) or `observation_table['date']`
  (line 140) when `date` is the row index, not a column: pandas raises
  `KeyError`. -/
  | keyErrorDate
  /-- `self.observation_table.tail(1).item()` (line 197): current
  pandas DataFrames have no `item` method, so attribute lookup raises
  `AttributeError`; in legacy pandas where `NDFrame.item` existed it
  raised `ValueError` because the one-row frame has several columns.
  Either way the statement raises.  Also covers `Series.item()` on an
  empty series inside `get_date_range` (line 140). -/
  | itemError
  /-- `raise Exception('Date are out of the valid range')`
  (lines 203, 213). -/
  | dateOutOfRange
  /-- `assert (start in range) or (stop in range)` failure (line 219). -/
  | assertRange
  /-- `assert date.start <= date.stop` failure (line 221). -/
  | assertOrder
  /-- `assert date.start != date.stop` failure (line 222). -/
  | assertCoincide
  /-- positional row access out of bounds (`iloc`). -/
  | indexError
deriving Repr, DecidableEq

/-- `drop_duplicates(subset=['date'], keep='last')` (source line 187):
keep, for each distinct date, only the last row carrying it, preserving
the relative order of the kept rows.  Implemented by a right fold: a row
is kept iff no later row has the same date. -/
def dropDuplicatesKeepLast (rows : List Record) : List Record :=
  rows.foldr (fun r acc => if acc.any (fun x => x.date == r.date) then acc else r :: acc) []

/-- `index.get_indexer([d], method='ffill')[0]` (source lines 205, 215,
224-225) on the date index.  pandas requires the index to be unique and
monotonically increasing (it raises otherwise); on such an index the
result is the position of the greatest value `≤ d`, which equals
`(number of values ≤ d) - 1`, and `-1` when every value exceeds `d`. -/
def ffillIndex (dates : List Nat) (d : Nat) : Int :=
  (dates.countP (fun x => decide (x ≤ d)) : Int) - 1

/-- `iloc[i]` scalar positional access with Python semantics: a negative
`i` counts from the end; out of bounds gives `none` (`IndexError`). -/
def pyIlocGet (l : List Record) (i : Int) : Option Record :=
  let j : Int := if i < 0 then (l.length : Int) + i else i
  if j < 0 then none else l.get? j.toNat

/-- `iloc[a:b]` positional slicing with Python semantics: negative
bounds count from the end and everything is clamped to `[0, n]`. -/
def pySlice (l : List Record) (a b : Int) : List Record :=
  let n := l.length
  let norm : Int → Nat := fun x => if x < 0 then ((n : Int) + x).toNat else min x.toNat n
  (l.take (norm b)).drop (norm a)

/-- The `date` argument of `Collection.download` (source line 196-217):
`None`, a single date string, a list of date strings, or a slice. -/
inductive Selector where
  | latest
  | single (d : Nat)
  | many (ds : List Nat)
  | interval (start stop : Nat)
deriving Repr, DecidableEq

/-- Resolution of one requested date (source lines 200-206 and 210-216):
range-check against the cached bounds, then `ffill` floor lookup and
positional row access. -/
def resolveOne (t : ObsTable) (sd ed d : Nat) : Except PyError DownloadTask :=
  if sd ≤ d ∧ d ≤ ed then
    match pyIlocGet t.rows (ffillIndex (t.rows.map (fun r => r.date)) d) with
    | some r => Except.ok r.toTask
    | none => Except.error PyError.indexError
  else Except.error PyError.dateOutOfRange

/-- The pure resolution phase of `Collection.download` (source lines
179-228), as a state transition on the `Collection`: it returns the
`download_list` together with the collection as the call leaves it —
every table change (`rt` filtering, `drop_duplicates(..., inplace=True)`,
`set_index(..., inplace=True)`) and the date-range caching are performed
on `self`, so they persist after the call.

Order of operations, as in the source:
1. lines 182-187 — if the table has an `rt` column: with an `rt` keyword
   argument, evaluate `self.observation_table.RT` (raises
   `AttributeError`: the column is named `rt`); without it, drop
   duplicate dates keeping the last row, in place;
2. lines 190-191 — if `start_date`/`end_date` are not cached, read them
   from the head and tail of the (sorted) `date` column;
3. line 193 — `set_index(['date'], inplace=True)`: raises `KeyError`
   when `date` is already the index (as it is on any second call);
4. lines 195-228 — build `download_list` from the selector. -/
def downloadResolve (c : Collection) (sel : Selector) (rtKwarg : Option String) :
    Except PyError (List DownloadTask × Collection) :=
  let t0 := c.table
  let step1 : Except PyError ObsTable :=
    if t0.hasRt then
      match rtKwarg with
      | some tag =>
        if "RT" ∈ t0.colNames then
          Except.ok { t0 with rows := t0.rows.filter (fun r => r.rt == some tag) }
        else Except.error PyError.attributeErrorRT
      | none =>
        if "date" ∈ t0.colNames then
          Except.ok { t0 with rows := dropDuplicatesKeepLast t0.rows }
        else Except.error PyError.keyErrorDate
    else Except.ok t0
  match step1 with
  | Except.error e => Except.error e
  | Except.ok t1 =>
    let stepDates : Except PyError (Nat × Nat) :=
      match c.start_date, c.end_date with
      | some a, some b => Except.ok (a, b)
      | _, _ =>
        if "date" ∈ t1.colNames then
          match t1.rows.head?, t1.rows.getLast? with
          | some a, some b => Except.ok (a.date, b.date)
          | _, _ => Except.error PyError.itemError
        else Except.error PyError.keyErrorDate
    match stepDates with
    | Except.error e => Except.error e
    | Except.ok (sd, ed) =>
      if "date" ∈ t1.colNames then
        let t2 : ObsTable := { t1 with dateIsIndex := true }
        let c2 : Collection := ⟨t2, some sd, some ed⟩
        match sel with
        | Selector.latest => Except.error PyError.itemError
        | Selector.single d =>
          match resolveOne t2 sd ed d with
          | Except.ok task => Except.ok ([task], c2)
          | Except.error e => Except.error e
        | Selector.many ds =>
          match ds.foldlM (fun acc d => (resolveOne t2 sd ed d).map (acc ++ [·])) [] with
          | Except.ok tasks => Except.ok (tasks, c2)
          | Except.error e => Except.error e
        | Selector.interval s e =>
          if ¬ ((sd ≤ s ∧ s ≤ ed) ∨ (sd ≤ e ∧ e ≤ ed)) then Except.error PyError.assertRange
          else if ¬ (s ≤ e) then Except.error PyError.assertOrder
          else if s = e then Except.error PyError.assertCoincide
          else
            let dates := t2.rows.map (fun r => r.date)
            let iStart := ffillIndex dates s
            let iEnd := ffillIndex dates e
            Except.ok ((pySlice t2.rows iStart (iEnd + 1)).map Record.toTask, c2)
      else Except.error PyError.keyErrorDate

/-- A streaming HTTP response as `Collection._get_file` consumes it
(source lines 268-287): whether `raise_for_status()` raises (non-2xx),
the `content-length` header (`0` when absent), and the sizes of the
chunks that `iter_content(1024)` yields. -/
structure NetResponse where
  isHTTPError : Bool
  contentLength : Nat
  chunkSizes : List Nat
deriving Repr, DecidableEq

/-- The network: what `session.get(url, stream=True)` returns per url. -/
abbrev Net : Type := String → NetResponse

/-- The local disk: file path to byte size, as an association list. -/
abbrev Disk : Type := List (String × Nat)

/-- `os.path.isfile` and `os.path.getsize` combined: the size of the
file at `p`, or `none` when no such file exists. -/
def Disk.sizeOf? (d : Disk) (p : String) : Option Nat :=
  (d.find? (fun e => e.1 == p)).map (fun e => e.2)

/-- `open(d_path, 'wb')` followed by writing all chunks: the file at `p`
now has size `size`, other files are untouched. -/
def Disk.write (d : Disk) (p : String) (size : Nat) : Disk :=
  (p, size) :: d.filter (fun e => ¬ e.1 == p)

/-- The value `Collection._get_file` RETURNS (it never raises on the
paths below): `None` after a caught HTTP error (source lines 270-272),
the local path string on skip or success (lines 280, 292), or — on a
size mismatch — an `Exception` object, returned rather than raised
(line 290). -/
inductive GetResult where
  | retNone
  | retPath (p : String)
  | retExc (file_name msg : String)
deriving Repr, DecidableEq

/-- `Collection._get_file` (source lines 262-292), returning the result
value together with the disk afterwards and the number of body bytes
pulled over the network:

1. `d_path = os.path.join(self.path, file_name)`;
2. `session.get(url, stream=True); raise_for_status()` — an
   `HTTPError` is caught, printed, and the function returns `None`
   (the streaming GET transfers no body bytes by itself);
3. `total_size = int(headers.get('content-length', 0))`;
4. if a file exists at `d_path` with exactly `total_size` bytes, skip:
   return the path, transfer nothing;
5. otherwise stream every chunk to the file, accumulating
   `downloaded_bytes`;
6. if `total_size != downloaded_bytes`, return (not raise) an
   `Exception((file_name, "Size incompatible with the original"))`,
   else return the path. -/
def get_file (net : Net) (disk : Disk) (dirPath url file_name : String) :
    GetResult × Disk × Nat :=
  let d_path := dirPath ++ pathSep ++ file_name
  let r := net url
  if r.isHTTPError then (GetResult.retNone, disk, 0)
  else
    let total_size := r.contentLength
    if disk.sizeOf? d_path == some total_size then (GetResult.retPath d_path, disk, 0)
    else
      let downloaded_bytes := r.chunkSizes.foldl (· + ·) 0
      let disk1 := disk.write d_path downloaded_bytes
      if total_size ≠ downloaded_bytes then
        (GetResult.retExc file_name "Size incompatible with the original", disk1, downloaded_bytes)
      else (GetResult.retPath d_path, disk1, downloaded_bytes)

/-- The concurrent phase of `Collection.download` (source lines
241-260).  Each task's future wraps `_get_file`; `task.result()`
re-raises only exceptions RAISED inside `_get_file` — but `_get_file`
catches HTTP errors and returns `None`, and returns (does not raise)
the size-mismatch `Exception` — so every `_get_file` return value is
appended to `downloaded_list` unconditionally.  The four workers write
to distinct paths; completion order is nondeterministic under
`as_completed` and is modeled as submission order (the claims checked
against this model are order-insensitive).  After the loop, an empty
`downloaded_list` raises `Exception('0 files downloaded')`.

Returns the `downloaded_list`, the final disk, and the total number of
body bytes transferred. -/
def downloadRun (net : Net) (disk : Disk) (dirPath : String)
    (tasks : List (String × String)) : Except String (List GetResult × Disk × Nat) :=
  let final := tasks.foldl
    (fun (acc : List GetResult × Disk × Nat) t =>
      let out := get_file net acc.2.1 dirPath t.1 t.2
      (acc.1 ++ [out.1], out.2.1, acc.2.2 + out.2.2)) ([], disk, 0)
  if final.1.isEmpty then Except.error "0 files downloaded"
  else Except.ok final

/-- Sort key used at source line 121: `sort_values(by=['date'])`. -/
def dateKey (a b : Record) : Prop := a.date ≤ b.date

/-- The `rt` cell of a row as pandas compares it (rows of a real-time
schema always carry a tag; `getD` only totalises the model). -/
def rtStr (r : Record) : String := r.rt.getD ""

/-- Sort key used at source line 118:
`sort_values(by=['date', 'rt'])` — lexicographic on (date, rt). -/
def rtKey (a b : Record) : Prop :=
  a.date < b.date ∨ (a.date = b.date ∧ rtStr a ≤ rtStr b)

instance : DecidableRel dateKey := fun a b =>
  inferInstanceAs (Decidable (a.date ≤ b.date))

instance : DecidableRel rtKey := fun a b =>
  inferInstanceAs (Decidable (a.date < b.date ∨ (a.date = b.date ∧ rtStr a ≤ rtStr b)))

instance : IsTotal Record dateKey where
  total a b := Nat.le_total a.date b.date

instance : IsTrans Record dateKey where
  trans _ _ _ h1 h2 := Nat.le_trans h1 h2

instance : IsTotal Record rtKey where
  total a b := by
    rcases Nat.lt_trichotomy a.date b.date with h | h | h
    · exact Or.inl (Or.inl h)
    · rcases le_total (rtStr a) (rtStr b) with hr | hr
      · exact Or.inl (Or.inr ⟨h, hr⟩)
      · exact Or.inr (Or.inr ⟨h.symm, hr⟩)
    · exact Or.inr (Or.inl h)

instance : IsTrans Record rtKey where
  trans a b c h1 h2 := by
    rcases h1 with h1 | ⟨e1, r1⟩
    · rcases h2 with h2 | ⟨e2, r2⟩
      · exact Or.inl (h1.trans h2)
      · exact Or.inl (e2 ▸ h1)
    · rcases h2 with h2 | ⟨e2, r2⟩
      · exact Or.inl (e1 ▸ h2)
      · exact Or.inr ⟨e1.trans e2, r1.trans r2⟩

/-- One iteration of the parse loop of `Session.load_collection`
(source lines 96-121): append the new row to the table, then
`sort_values` by `['date', 'rt']` when the current line's name contains
`-RT` (equivalently, when its record carries an `rt` tag), else by
`['date']`.  pandas only guarantees that the result of `sort_values` is
sorted by the given key (its default quicksort is not stable); the sort
is modeled by `List.insertionSort`, one sorted permutation. -/
def parseStep (table : List Record) (r : Record) : List Record :=
  if r.rt.isSome then List.insertionSort rtKey (table ++ [r])
  else List.insertionSort dateKey (table ++ [r])

/-- The whole parse loop (source lines 87-121) over the per-line
records, starting from the empty table. -/
def loadTable (records : List Record) : List Record :=
  records.foldl parseStep []

/-- Network for the size-mismatch scenario: every url answers 2xx with a
declared `content-length` of 2048 but a body of a single 1024-byte
chunk (a truncated stream). -/
def c1Net : Net := fun _ => ⟨false, 2048, [1024]⟩

/-- C1: the claim states that a completed stream whose byte count
differs from the declared content-length is a verification failure that
contributes NO entry to the list `Collection.download` returns.  The
code instead RETURNS the `Exception` object from `_get_file`
(source line 290), and the aggregation loop appends whatever
`task.result()` yields (lines 252-253), so the mismatch task DOES
contribute an entry — the `Exception` value itself — to the returned
list.  Evaluated here at one truncated download: the returned
`downloaded_list` is exactly the exception entry. -/
theorem C1_size_mismatch_appended :
    downloadRun c1Net [] "/data" [("http://u/f1.nc", "f1.nc")] =
      Except.ok ([GetResult.retExc "f1.nc" "Size incompatible with the original"],
        [("/data" ++ "/" ++ "f1.nc", 1024)], 1024) := by
  rfl

/-- Network for the 404 scenario: the third url answers 404 (transport
error); every other url streams its full declared 100 bytes. -/
def c2Net : Net := fun url =>
  if url == "http://u/3" then ⟨true, 100, [100]⟩ else ⟨false, 100, [100]⟩

/-- C2: the claim states that, of 5 tasks with exactly one 404,
`Collection.download` returns exactly 4 successful local paths, the
failing task contributing nothing.  The code catches the `HTTPError`
inside `_get_file` and returns `None` (source lines 270-272), and the
aggregation loop appends that `None` to `downloaded_list`
(lines 252-253): the call returns a 5-element list — four paths plus a
`None` entry — not a 4-element list.  (The call indeed does not raise
`'0 files downloaded'`, but only because even an all-failure run
produces a list of `None`s.) -/
theorem C2_http_error_appended :
    downloadRun c2Net [] "/data"
      [("http://u/1", "f1"), ("http://u/2", "f2"), ("http://u/3", "f3"),
       ("http://u/4", "f4"), ("http://u/5", "f5")] =
      Except.ok ([GetResult.retPath ("/data" ++ "/" ++ "f1"),
                  GetResult.retPath ("/data" ++ "/" ++ "f2"),
                  GetResult.retNone,
                  GetResult.retPath ("/data" ++ "/" ++ "f4"),
                  GetResult.retPath ("/data" ++ "/" ++ "f5")],
        [("/data" ++ "/" ++ "f5", 100), ("/data" ++ "/" ++ "f4", 100),
         ("/data" ++ "/" ++ "f2", 100), ("/data" ++ "/" ++ "f1", 100)], 400) := by
  rfl

/-- A two-row non-real-time catalog: dates 5 and 10 (the spec's
`2020/01/05` / `2020/01/10` scenario, as day numbers). -/
def c3row1 : Record :=
  ⟨"c_gls_NDVI_202001050000_GLOBE_PROBAV_V2.0.1", "p", "f1.nc", "u1", "PROBAV", "2.0.1", none, 5⟩

/-- Second row of the two-row catalog, dated 10. -/
def c3row2 : Record :=
  ⟨"c_gls_NDVI_202001100000_GLOBE_PROBAV_V2.0.1", "p", "f2.nc", "u2", "PROBAV", "2.0.1", none, 10⟩

/-- The collection as `load_collection` hands it over: `date` still a
column, no cached bounds. -/
def c3col : Collection := ⟨⟨false, false, [c3row1, c3row2]⟩, none, none⟩

/-- Network for the re-run scenario: url `u1` declares 2048 bytes. -/
def c3Net : Net := fun _ => ⟨false, 2048, [2048]⟩

/-- C3: the claim states that a second `Collection.download` against the
same destination is a per-file no-op returning the same path list.  The
per-file skip itself behaves exactly as claimed — third conjunct: with
`f1.nc` already on disk at its declared 2048 bytes, `_get_file` returns
the path, touches nothing, and transfers zero body bytes.  But a second
`download()` call on the same `Collection` never reaches `_get_file`:
the first call's `set_index(['date'], inplace=True)` (source line 193)
moved `date` out of the columns, so the second call's
`set_index(['date'])` raises `KeyError` — first and second conjuncts:
the first call resolves day 7 to the day-5 record and leaves the table
date-indexed, and the identical second call on the resulting state
raises instead of no-opping. -/
theorem C3_second_run_keyerror :
    downloadResolve c3col (Selector.single 7) none =
      Except.ok ([⟨"u1", "f1.nc", "p"⟩], ⟨⟨false, true, [c3row1, c3row2]⟩, some 5, some 10⟩) ∧
    downloadResolve ⟨⟨false, true, [c3row1, c3row2]⟩, some 5, some 10⟩ (Selector.single 7) none =
      Except.error PyError.keyErrorDate ∧
    get_file c3Net [("/data" ++ "/" ++ "f1.nc", 2048)] "/data" "u1" "f1.nc" =
      (GetResult.retPath ("/data" ++ "/" ++ "f1.nc"), [("/data" ++ "/" ++ "f1.nc", 2048)], 0) := by
  exact ⟨rfl, rfl, rfl⟩

/-- C4: the claim states that `download()` with no date selector
resolves the chronologically latest record.  The code computes
`self.observation_table.tail(1).item()` (source line 197):
`DataFrame.tail(1)` is a one-row, six-column frame and `.item` is not a
DataFrame method (nor a column), so the line raises (`AttributeError`
in current pandas; `ValueError` in legacy pandas whose `NDFrame.item`
required a single element) instead of yielding the latest record.
Evaluated here on a non-empty two-row catalog. -/
theorem C4_latest_raises :
    downloadResolve c3col Selector.latest none = Except.error PyError.itemError := by
  rfl

/-- Rows of a real-time catalog: two rows share date 5 with tags RT0
and RT1, one row has date 10. -/
def c7rowA : Record :=
  ⟨"c_gls_NDVI300-RT0_202001050000_GLOBE_OLCI_V1.1.1", "p", "a.nc", "ua", "OLCI", "1.1.1",
    some "RT0", 5⟩

/-- Second real-time row, same date 5, tag RT1. -/
def c7rowB : Record :=
  ⟨"c_gls_NDVI300-RT1_202001050000_GLOBE_OLCI_V1.1.1", "p", "b.nc", "ub", "OLCI", "1.1.1",
    some "RT1", 5⟩

/-- Third real-time row, date 10, tag RT0. -/
def c7rowC : Record :=
  ⟨"c_gls_NDVI300-RT0_202001100000_GLOBE_OLCI_V1.1.1", "p", "c.nc", "uc", "OLCI", "1.1.1",
    some "RT0", 10⟩

/-- The real-time collection as parsed (table has the `rt` column). -/
def c7col : Collection := ⟨⟨true, false, [c7rowA, c7rowB, c7rowC]⟩, none, none⟩

/-- C7: the claim states that an explicit real-time tag keyword filters
the table to that tag, and that with no tag the table is collapsed to
the last-listed record per date.  Second conjunct — the no-tag half is
as claimed: duplicate dates are dropped keeping the last row (date 5
keeps the RT1 row), the result is re-indexed by date, and day 5
resolves to that kept row.  First conjunct — the explicit-tag half
fails: the code evaluates `self.observation_table.RT` (source line 185)
but the column is named `rt`, so the call raises `AttributeError`
instead of filtering. -/
theorem C7_rt_kwarg_raises :
    downloadResolve c7col (Selector.single 5) (some "RT1") =
      Except.error PyError.attributeErrorRT ∧
    downloadResolve c7col (Selector.single 5) none =
      Except.ok ([⟨"ub", "b.nc", "p"⟩], ⟨⟨true, true, [c7rowB, c7rowC]⟩, some 5, some 10⟩) := by
  exact ⟨rfl, rfl⟩

/-- A manifest line with twelve `/`-separated segments, as in the real
manifests (host part, nine directory segments of which the last three
are the `YYYY/MM/DD` date, the product-name segment, the file name). -/
def c9Line : String :=
  "https:/land.copernicus.vgt.vito.be/manifest/s1/s2/s3/2020/01/05/c_gls_NDVI_202001050000_GLOBE_PROBAV_V2.0.1/file.nc"

/-- C9 counterexample: the claim (with the spec) says the local
sub-path is "the 8 segments immediately preceding the final two
segments".  The code takes `exploded[-8:-1]` (source line 90) — the
SEVEN segments immediately preceding the final one, a window that both
has one segment fewer and is shifted by one (it includes the
product-name segment).  On a concrete twelve-segment line the two
disagree. -/
theorem C9_subpath_counterexample :
    (parseLine c9Line 5).int_path ≠ specSubPath c9Line := by
  decide

/-- On a list sorted strictly ascending (pandas' unique monotonic
index), the positions holding a value `≤ d` are exactly the positions
below `countP (· ≤ d)` — the prefix the `ffill` indexer stands on. -/
theorem sorted_countP_le (l : List Nat) (d : Nat) (hs : l.Sorted (· < ·)) :
    ∀ j (hj : j < l.length),
      (l.get ⟨j, hj⟩ ≤ d ↔ j < l.countP (fun x => decide (x ≤ d))) := by
  induction l with
  | nil => intro j hj; exact absurd hj (Nat.not_lt_zero j)
  | cons x xs ih =>
    intro j hj
    rw [List.sorted_cons] at hs
    obtain ⟨hx, hxs⟩ := hs
    have hcnt : (x :: xs).countP (fun y => decide (y ≤ d)) =
        xs.countP (fun y => decide (y ≤ d)) + (if x ≤ d then 1 else 0) := by
      rw [List.countP_cons]
      by_cases h : x ≤ d <;> simp [h]
    cases j with
    | zero =>
      simp only [List.get]
      rw [hcnt]
      by_cases h : x ≤ d
      · simp [h]
      · have hz : xs.countP (fun y => decide (y ≤ d)) = 0 := by
          rw [List.countP_eq_zero]
          intro y hy
          simp only [decide_eq_true_eq]
          intro hyd
          exact h (Nat.le_trans (Nat.le_of_lt (hx y hy)) hyd)
        simp [h, hz]
    | succ n =>
      have hn : n < xs.length := Nat.lt_of_succ_lt_succ hj
      have hget : (x :: xs).get ⟨n + 1, hj⟩ = xs.get ⟨n, hn⟩ := rfl
      rw [hget, hcnt, ih hxs n hn]
      by_cases h : x ≤ d
      · simp [h, Nat.succ_lt_succ_iff]
      · have hz : xs.countP (fun y => decide (y ≤ d)) = 0 := by
          rw [List.countP_eq_zero]
          intro y hy
          simp only [decide_eq_true_eq]
          intro hyd
          exact h (Nat.le_trans (Nat.le_of_lt (hx y hy)) hyd)
        simp [h, hz]

/-- `drop_duplicates` only ever removes rows: the result is a sublist. -/
theorem dropDuplicatesKeepLast_sublist (rows : List Record) :
    List.Sublist (dropDuplicatesKeepLast rows) rows := by
  induction rows with
  | nil => exact List.Sublist.refl []
  | cons r rs ih =>
    show List.Sublist (if (dropDuplicatesKeepLast rs).any (fun x => x.date == r.date) then
        dropDuplicatesKeepLast rs else r :: dropDuplicatesKeepLast rs) (r :: rs)
    by_cases h : (dropDuplicatesKeepLast rs).any (fun x => x.date == r.date) = true
    · rw [if_pos h]; exact ih.cons r
    · rw [if_neg h]; exact ih.cons₂ r

/-- On a table whose dates are strictly increasing (no duplicate
dates), `drop_duplicates(subset=['date'], keep='last')` changes
nothing. -/
theorem dropDuplicatesKeepLast_eq_self (rows : List Record)
    (h : (rows.map Record.date).Sorted (· < ·)) :
    dropDuplicatesKeepLast rows = rows := by
  induction rows with
  | nil => rfl
  | cons r rs ih =>
    rw [List.map_cons, List.sorted_cons] at h
    obtain ⟨hr, hrs⟩ := h
    have hrec : dropDuplicatesKeepLast rs = rs := ih hrs
    show (if (dropDuplicatesKeepLast rs).any (fun x => x.date == r.date) then
        dropDuplicatesKeepLast rs else r :: dropDuplicatesKeepLast rs) = r :: rs
    rw [hrec]
    have hany : rs.any (fun x => x.date == r.date) = false := by
      rw [List.any_eq_false]
      intro x hx
      have hlt : r.date < x.date := hr x.date (List.mem_map_of_mem Record.date hx)
      simp [Nat.ne_of_lt hlt, Ne.symm (Nat.ne_of_lt hlt)]
    rw [hany]
    simp

/-- Control-flow reduction of `downloadResolve` on a fresh (un-indexed)
collection, no `rt` keyword, duplicate-free dates, single-date
selector: the rt block (a no-op dedup), the date-range read, and
`set_index` all succeed, leaving exactly the per-date resolution. -/
theorem downloadResolve_single_red (hasRt : Bool) (rows : List Record) (r0 rN : Record)
    (d : Nat) (hhead : rows.head? = some r0) (hlast : rows.getLast? = some rN)
    (hded : dropDuplicatesKeepLast rows = rows) :
    downloadResolve ⟨⟨hasRt, false, rows⟩, none, none⟩ (Selector.single d) none =
      (match resolveOne ⟨hasRt, true, rows⟩ r0.date rN.date d with
       | Except.ok task =>
         Except.ok ([task], ⟨⟨hasRt, true, rows⟩, some r0.date, some rN.date⟩)
       | Except.error e => Except.error e) := by
  cases hasRt <;> simp [downloadResolve, ObsTable.colNames, hded, hhead, hlast]

/-- Control-flow reduction of `downloadResolve` as above, for the
interval selector. -/
theorem downloadResolve_interval_red (hasRt : Bool) (rows : List Record) (r0 rN : Record)
    (s e : Nat) (hhead : rows.head? = some r0) (hlast : rows.getLast? = some rN)
    (hded : dropDuplicatesKeepLast rows = rows) :
    downloadResolve ⟨⟨hasRt, false, rows⟩, none, none⟩ (Selector.interval s e) none =
      (if ¬ ((r0.date ≤ s ∧ s ≤ rN.date) ∨ (r0.date ≤ e ∧ e ≤ rN.date)) then
        Except.error PyError.assertRange
      else if ¬ (s ≤ e) then Except.error PyError.assertOrder
      else if s = e then Except.error PyError.assertCoincide
      else
        Except.ok ((pySlice rows (ffillIndex (rows.map Record.date) s)
            (ffillIndex (rows.map Record.date) e + 1)).map Record.toTask,
          ⟨⟨hasRt, true, rows⟩, some r0.date, some rN.date⟩)) := by
  cases hasRt <;> simp [downloadResolve, ObsTable.colNames, hded, hhead, hlast]

/-- C5: for a non-empty catalog (strictly increasing dates, as the
pandas `ffill` indexer itself requires) and a single-date selector, a
date outside `[minDate, maxDate]` raises the date-range error, and a
date inside resolves — by floor lookup — to the record whose date is
the greatest date not exceeding it: that record's date is `≤ d`, every
record dated `≤ d` is dated no later than it, and a record dated
exactly `d` is the resolved record itself. -/
theorem C5_single_date_floor (hasRt : Bool) (rows : List Record) (r0 rN : Record) (d : Nat)
    (hhead : rows.head? = some r0) (hlast : rows.getLast? = some rN)
    (hs : (rows.map Record.date).Sorted (· < ·)) :
    (¬ (r0.date ≤ d ∧ d ≤ rN.date) →
      downloadResolve ⟨⟨hasRt, false, rows⟩, none, none⟩ (Selector.single d) none =
        Except.error PyError.dateOutOfRange) ∧
    (r0.date ≤ d → d ≤ rN.date →
      ∃ (i : Nat) (hi : i < rows.length),
        downloadResolve ⟨⟨hasRt, false, rows⟩, none, none⟩ (Selector.single d) none =
          Except.ok ([(rows.get ⟨i, hi⟩).toTask],
            ⟨⟨hasRt, true, rows⟩, some r0.date, some rN.date⟩) ∧
        (rows.get ⟨i, hi⟩).date ≤ d ∧
        (∀ j (hj : j < rows.length), (rows.get ⟨j, hj⟩).date ≤ d →
          (rows.get ⟨j, hj⟩).date ≤ (rows.get ⟨i, hi⟩).date) ∧
        (∀ j (hj : j < rows.length), (rows.get ⟨j, hj⟩).date = d → j = i)) := by
  have hded := dropDuplicatesKeepLast_eq_self rows hs
  have hred := downloadResolve_single_red hasRt rows r0 rN d hhead hlast hded
  constructor
  · intro hout
    have hro : resolveOne ⟨hasRt, true, rows⟩ r0.date rN.date d =
        Except.error PyError.dateOutOfRange := by
      simp only [resolveOne, if_neg hout]
    rw [hred, hro]
  · intro hsd hed
    have hlen : (rows.map Record.date).length = rows.length := List.length_map _ _
    have hne : rows ≠ [] := fun h => by rw [h] at hhead; cases hhead
    have h0lt : 0 < rows.length := List.length_pos.mpr hne
    have hr00 : rows.get ⟨0, h0lt⟩ = r0 := by
      cases rows with
      | nil => cases hhead
      | cons a l =>
        simp only [List.head?_cons, Option.some.injEq] at hhead
        simpa using hhead
    have hfloor := sorted_countP_le (rows.map Record.date) d hs
    have hgetd : ∀ j (hj : j < rows.length),
        (rows.map Record.date).get ⟨j, by omega⟩ = (rows.get ⟨j, hj⟩).date := by
      intro j hj
      exact List.get_map Record.date
    have hc1 : 0 < (rows.map Record.date).countP (fun x => decide (x ≤ d)) := by
      have h0 : (rows.map Record.date).get ⟨0, by omega⟩ ≤ d := by
        rw [hgetd 0 h0lt, hr00]; exact hsd
      exact (hfloor 0 (by omega)).mp h0
    have hcle : (rows.map Record.date).countP (fun x => decide (x ≤ d)) ≤ rows.length := by
      calc (rows.map Record.date).countP (fun x => decide (x ≤ d))
          ≤ (rows.map Record.date).length := List.countP_le_length _
        _ = rows.length := hlen
    set c := (rows.map Record.date).countP (fun x => decide (x ≤ d)) with hc
    have hi : c - 1 < rows.length := by omega
    refine ⟨c - 1, hi, ?_, ?_, ?_, ?_⟩
    · have hro : resolveOne ⟨hasRt, true, rows⟩ r0.date rN.date d =
          Except.ok ((rows.get ⟨c - 1, hi⟩).toTask) := by
        simp only [resolveOne, if_pos (And.intro hsd hed)]
        have hff : ffillIndex (rows.map (fun r => r.date)) d = (c : Int) - 1 := by
          simp only [ffillIndex, hc]
        rw [hff]
        have hj : ¬ ((c : Int) - 1 < 0) := by omega
        have htn : ((c : Int) - 1).toNat = c - 1 := by omega
        simp only [pyIlocGet, if_neg hj, htn]
        rw [List.get?_eq_get hi]
      rw [hred, hro]
    · have := (hfloor (c - 1) (by omega)).mpr (by omega)
      rwa [hgetd (c - 1) hi] at this
    · intro j hj hjd
      have hjc : j < c := (hfloor j (by omega)).mp (by rw [hgetd j hj]; exact hjd)
      have hmono : ∀ a b (ha : a < rows.length) (hb : b < rows.length), a ≤ b →
          (rows.get ⟨a, ha⟩).date ≤ (rows.get ⟨b, hb⟩).date := by
        intro a b ha hb hab
        rcases Nat.lt_or_ge a b with h | h
        · have := List.pairwise_iff_get.mp hs ⟨a, by omega⟩ ⟨b, by omega⟩ h
          rw [hgetd a ha, hgetd b hb] at this
          exact Nat.le_of_lt this
        · have hab' : a = b := Nat.le_antisymm hab h
          subst hab'
          exact Nat.le_refl _
      exact hmono j (c - 1) hj hi (by omega)
    · intro j hj hjd
      have hjc : j < c := (hfloor j (by omega)).mp (by rw [hgetd j hj]; omega)
      by_contra hne'
      have hjlt : j < c - 1 := by omega
      have := List.pairwise_iff_get.mp hs ⟨j, by omega⟩ ⟨c - 1, by omega⟩ hjlt
      rw [hgetd j hj, hgetd (c - 1) hi] at this
      have hile : (rows.get ⟨c - 1, hi⟩).date ≤ d := by
        have := (hfloor (c - 1) (by omega)).mpr (by omega)
        rwa [hgetd (c - 1) hi] at this
      omega

/-- First record of the C5 witness catalog, dated day 5. -/
def c5row1 : Record :=
  ⟨"c_gls_LAI_202001050000_GLOBE_PROBAV_V2.0.1", "q", "g1.nc", "v1", "PROBAV", "2.0.1", none, 5⟩

/-- Second record of the C5 witness catalog, dated day 10. -/
def c5row2 : Record :=
  ⟨"c_gls_LAI_202001100000_GLOBE_PROBAV_V2.0.1", "q", "g2.nc", "v2", "PROBAV", "2.0.1", none, 10⟩

/-- Witness for C5, instantiated at the spec's own scenario: catalog
dates {5, 10}, requested date 7 strictly between them — the floor
lookup resolves, and resolves to a record dated at most 7. -/
theorem C5_single_date_floor_witness :
    ∃ (i : Nat) (hi : i < [c5row1, c5row2].length),
      downloadResolve ⟨⟨false, false, [c5row1, c5row2]⟩, none, none⟩ (Selector.single 7) none =
        Except.ok ([([c5row1, c5row2].get ⟨i, hi⟩).toTask],
          ⟨⟨false, true, [c5row1, c5row2]⟩, some c5row1.date, some c5row2.date⟩) ∧
      ([c5row1, c5row2].get ⟨i, hi⟩).date ≤ 7 ∧
      (∀ j (hj : j < [c5row1, c5row2].length), ([c5row1, c5row2].get ⟨j, hj⟩).date ≤ 7 →
        ([c5row1, c5row2].get ⟨j, hj⟩).date ≤ ([c5row1, c5row2].get ⟨i, hi⟩).date) ∧
      (∀ j (hj : j < [c5row1, c5row2].length), ([c5row1, c5row2].get ⟨j, hj⟩).date = 7 → j = i) :=
  (C5_single_date_floor false [c5row1, c5row2] c5row1 c5row2 7 rfl rfl (by decide)).2
    (by decide) (by decide)

/-- C6: for the date-interval selector `[s, e]` on a catalog with
strictly increasing dates: (a) when neither endpoint lies within
`[minDate, maxDate]` the range assert fails; (b) when an endpoint is in
range but the start is after the stop, the order assert
(`InvalidRangeError`) fails; (c) likewise when the endpoints coincide;
(d) otherwise — start within range, start before stop — the call
succeeds and returns exactly the records from the floor-lookup index of
`s` to the floor-lookup index of `e` inclusive, in table order (the
floor indices being characterised as the positions of the latest
records whose dates do not exceed the respective endpoints). -/
theorem C6_interval_selector (hasRt : Bool) (rows : List Record) (r0 rN : Record) (s e : Nat)
    (hhead : rows.head? = some r0) (hlast : rows.getLast? = some rN)
    (hs : (rows.map Record.date).Sorted (· < ·)) :
    (¬ ((r0.date ≤ s ∧ s ≤ rN.date) ∨ (r0.date ≤ e ∧ e ≤ rN.date)) →
      downloadResolve ⟨⟨hasRt, false, rows⟩, none, none⟩ (Selector.interval s e) none =
        Except.error PyError.assertRange) ∧
    (((r0.date ≤ s ∧ s ≤ rN.date) ∨ (r0.date ≤ e ∧ e ≤ rN.date)) → e < s →
      downloadResolve ⟨⟨hasRt, false, rows⟩, none, none⟩ (Selector.interval s e) none =
        Except.error PyError.assertOrder) ∧
    (((r0.date ≤ s ∧ s ≤ rN.date) ∨ (r0.date ≤ e ∧ e ≤ rN.date)) → s = e →
      downloadResolve ⟨⟨hasRt, false, rows⟩, none, none⟩ (Selector.interval s e) none =
        Except.error PyError.assertCoincide) ∧
    (r0.date ≤ s → s ≤ rN.date → s < e →
      ∃ (iS iE : Nat) (hiS : iS < rows.length) (hiE : iE < rows.length)
        (tasks : List DownloadTask),
        downloadResolve ⟨⟨hasRt, false, rows⟩, none, none⟩ (Selector.interval s e) none =
          Except.ok (tasks, ⟨⟨hasRt, true, rows⟩, some r0.date, some rN.date⟩) ∧
        (rows.get ⟨iS, hiS⟩).date ≤ s ∧
        (∀ j (hj : j < rows.length), (rows.get ⟨j, hj⟩).date ≤ s → j ≤ iS) ∧
        (rows.get ⟨iE, hiE⟩).date ≤ e ∧
        (∀ j (hj : j < rows.length), (rows.get ⟨j, hj⟩).date ≤ e → j ≤ iE) ∧
        iS ≤ iE ∧
        tasks.length = iE + 1 - iS ∧
        (∀ k (hk : k < tasks.length) (hik : iS + k < rows.length),
          tasks.get ⟨k, hk⟩ = (rows.get ⟨iS + k, hik⟩).toTask)) := by
  have hded := dropDuplicatesKeepLast_eq_self rows hs
  have hred := downloadResolve_interval_red hasRt rows r0 rN s e hhead hlast hded
  refine ⟨?_, ?_, ?_, ?_⟩
  · intro hout
    rw [hred, if_pos hout]
  · intro hin horder
    rw [hred, if_neg (not_not_intro hin), if_pos (by omega : ¬ (s ≤ e))]
  · intro hin heq
    rw [hred, if_neg (not_not_intro hin), if_neg (by omega : ¬ ¬ (s ≤ e)), if_pos heq]
  · intro hsd hse hlt
    have hin : (r0.date ≤ s ∧ s ≤ rN.date) ∨ (r0.date ≤ e ∧ e ≤ rN.date) :=
      Or.inl ⟨hsd, hse⟩
    have hlen : (rows.map Record.date).length = rows.length := List.length_map _ _
    have hne : rows ≠ [] := fun h => by rw [h] at hhead; cases hhead
    have h0lt : 0 < rows.length := List.length_pos.mpr hne
    have hr00 : rows.get ⟨0, h0lt⟩ = r0 := by
      cases rows with
      | nil => cases hhead
      | cons a l =>
        simp only [List.head?_cons, Option.some.injEq] at hhead
        simpa using hhead
    have hgetd : ∀ j (hj : j < rows.length),
        (rows.map Record.date).get ⟨j, by omega⟩ = (rows.get ⟨j, hj⟩).date := by
      intro j hj
      exact List.get_map Record.date
    have hfloorS := sorted_countP_le (rows.map Record.date) s hs
    have hfloorE := sorted_countP_le (rows.map Record.date) e hs
    set cS := (rows.map Record.date).countP (fun x => decide (x ≤ s)) with hcS
    set cE := (rows.map Record.date).countP (fun x => decide (x ≤ e)) with hcE
    have hcS1 : 0 < cS := by
      have h0 : (rows.map Record.date).get ⟨0, by omega⟩ ≤ s := by
        rw [hgetd 0 h0lt, hr00]
        exact hsd
      exact (hfloorS 0 (by omega)).mp h0
    have hmonoP : cS ≤ cE := by
      refine List.countP_mono_left ?_
      intro x _ hx
      simp only [decide_eq_true_eq] at hx ⊢
      omega
    have hcEle : cE ≤ rows.length := by
      calc cE ≤ (rows.map Record.date).length := List.countP_le_length _
        _ = rows.length := hlen
    have hcSle : cS ≤ rows.length := le_trans hmonoP hcEle
    have hcE1 : 0 < cE := lt_of_lt_of_le hcS1 hmonoP
    have hiS : cS - 1 < rows.length := by omega
    have hiE : cE - 1 < rows.length := by omega
    refine ⟨cS - 1, cE - 1, hiS, hiE,
      ((rows.take cE).drop (cS - 1)).map Record.toTask, ?_, ?_, ?_, ?_, ?_, ?_, ?_, ?_⟩
    · rw [hred, if_neg (not_not_intro hin), if_neg (by omega : ¬ ¬ (s ≤ e)),
        if_neg (by omega : ¬ s = e)]
      have hffS : ffillIndex (rows.map fun r => r.date) s = (cS : Int) - 1 := by
        simp only [ffillIndex, hcS]
      have hffE : ffillIndex (rows.map fun r => r.date) e = (cE : Int) - 1 := by
        simp only [ffillIndex, hcE]
      have hslice : pySlice rows ((cS : Int) - 1) ((cE : Int) - 1 + 1) =
          (rows.take cE).drop (cS - 1) := by
        simp only [pySlice]
        have hb : (cE : Int) - 1 + 1 = (cE : Int) := by omega
        rw [hb]
        rw [if_neg (by omega : ¬ ((cS : Int) - 1 < 0)), if_neg (by omega : ¬ ((cE : Int) < 0))]
        have h2 : ((cS : Int) - 1).toNat = cS - 1 := by omega
        have h3 : ((cE : Int)).toNat = cE := by omega
        rw [h2, h3, Nat.min_eq_left hcEle]
        have h4 : min (cS - 1) rows.length = cS - 1 := Nat.min_eq_left (le_of_lt hiS)
        rw [h4]
      rw [hffS, hffE, hslice]
    · have := (hfloorS (cS - 1) (by omega)).mpr (by omega)
      rwa [hgetd (cS - 1) hiS] at this
    · intro j hj hjd
      have : j < cS := (hfloorS j (by omega)).mp (by rw [hgetd j hj]; exact hjd)
      omega
    · have := (hfloorE (cE - 1) (by omega)).mpr (by omega)
      rwa [hgetd (cE - 1) hiE] at this
    · intro j hj hjd
      have : j < cE := (hfloorE j (by omega)).mp (by rw [hgetd j hj]; exact hjd)
      omega
    · omega
    · simp only [List.length_map, List.length_drop, List.length_take,
        Nat.min_eq_left hcEle]
      omega
    · intro k hk hik
      have hk' : k < ((rows.take cE).drop (cS - 1)).length := by
        simpa using hk
      have h1 : (((rows.take cE).drop (cS - 1)).map Record.toTask).get ⟨k, hk⟩ =
          Record.toTask (((rows.take cE).drop (cS - 1)).get ⟨k, hk'⟩) :=
        List.get_map Record.toTask
      rw [h1]
      congr 1
      have h2 : ((rows.take cE).drop (cS - 1)).get ⟨k, hk'⟩ =
          (rows.take cE).get ⟨(cS - 1) + k, by
            simp only [List.length_drop] at hk'
            omega⟩ := by
        simp only [List.get_eq_getElem, List.getElem_drop]
      rw [h2]
      have h3 : (rows.take cE).get ⟨(cS - 1) + k, by
            simp only [List.length_drop] at hk'
            omega⟩ = rows.get ⟨(cS - 1) + k, hik⟩ := by
        simp only [List.get_eq_getElem, List.getElem_take]
      rw [h3]

/-- First record of the C6 witness catalog, dated day 5. -/
def c6row1 : Record :=
  ⟨"c_gls_FAPAR_202001050000_GLOBE_PROBAV_V2.0.1", "w", "h1.nc", "x1", "PROBAV", "2.0.1", none, 5⟩

/-- Second record of the C6 witness catalog, dated day 10. -/
def c6row2 : Record :=
  ⟨"c_gls_FAPAR_202001100000_GLOBE_PROBAV_V2.0.1", "w", "h2.nc", "x2", "PROBAV", "2.0.1", none, 10⟩

/-- Third record of the C6 witness catalog, dated day 15. -/
def c6row3 : Record :=
  ⟨"c_gls_FAPAR_202001150000_GLOBE_PROBAV_V2.0.1", "w", "h3.nc", "x3", "PROBAV", "2.0.1", none, 15⟩

/-- Witness for C6: catalog dates {5, 10, 15}, interval [6, 12] — both
endpoints valid, floors are the day-5 and day-10 records, and the slice
between them inclusive is returned. -/
theorem C6_interval_selector_witness :
    ∃ (iS iE : Nat) (hiS : iS < [c6row1, c6row2, c6row3].length)
      (hiE : iE < [c6row1, c6row2, c6row3].length) (tasks : List DownloadTask),
      downloadResolve ⟨⟨false, false, [c6row1, c6row2, c6row3]⟩, none, none⟩
          (Selector.interval 6 12) none =
        Except.ok (tasks,
          ⟨⟨false, true, [c6row1, c6row2, c6row3]⟩, some c6row1.date, some c6row3.date⟩) ∧
      ([c6row1, c6row2, c6row3].get ⟨iS, hiS⟩).date ≤ 6 ∧
      (∀ j (hj : j < [c6row1, c6row2, c6row3].length),
        ([c6row1, c6row2, c6row3].get ⟨j, hj⟩).date ≤ 6 → j ≤ iS) ∧
      ([c6row1, c6row2, c6row3].get ⟨iE, hiE⟩).date ≤ 12 ∧
      (∀ j (hj : j < [c6row1, c6row2, c6row3].length),
        ([c6row1, c6row2, c6row3].get ⟨j, hj⟩).date ≤ 12 → j ≤ iE) ∧
      iS ≤ iE ∧
      tasks.length = iE + 1 - iS ∧
      (∀ k (hk : k < tasks.length) (hik : iS + k < [c6row1, c6row2, c6row3].length),
        tasks.get ⟨k, hk⟩ = ([c6row1, c6row2, c6row3].get ⟨iS + k, hik⟩).toTask) :=
  (C6_interval_selector false [c6row1, c6row2, c6row3] c6row1 c6row3 6 12
    rfl rfl (by decide)).2.2.2 (by decide) (by decide) (by decide)

/-- A real-time parse step leaves the table sorted by the
(date, rt-tag) key. -/
theorem parseStep_sorted_rt (t : List Record) (r : Record) (h : r.rt.isSome = true) :
    (parseStep t r).Sorted rtKey := by
  simp only [parseStep, h, if_pos]
  exact List.sorted_insertionSort rtKey _

/-- A non-real-time parse step leaves the table sorted by date. -/
theorem parseStep_sorted_date (t : List Record) (r : Record) (h : r.rt = none) :
    (parseStep t r).Sorted dateKey := by
  simp only [parseStep, h, Option.isSome_none, Bool.false_eq_true, if_false]
  exact List.sorted_insertionSort dateKey _

/-- Any non-empty parser state is the outcome of a final `parseStep` on
some record of the input. -/
theorem loadTable_cases (rs : List Record) :
    loadTable rs = [] ∨ ∃ t r, r ∈ rs ∧ loadTable rs = parseStep t r := by
  induction rs using List.reverseRecOn with
  | nil => exact Or.inl rfl
  | append_singleton l a _ =>
    refine Or.inr ⟨l.foldl parseStep [], a, ?_, ?_⟩
    · exact List.mem_append_right l (List.mem_singleton_self a)
    · simp [loadTable, List.foldl_append]

/-- Sortedness by the (date, rt) key implies sortedness by date. -/
theorem sorted_rtKey_dateKey {l : List Record} (h : l.Sorted rtKey) : l.Sorted dateKey := by
  refine h.imp ?_
  intro a b hab
  rcases hab with h1 | ⟨h1, _⟩
  · exact Nat.le_of_lt h1
  · exact Nat.le_of_eq h1

/-- C8: over a schema-uniform manifest (every record real-time, or
none — the spec's own schema invariant), each state of the parse loop,
i.e. the table after each appended record and in particular the final
output of `load_collection`, is sorted non-decreasing by date; and when
the records carry real-time tags it is moreover sorted by the
lexicographic (date, rt-tag) key, so records sharing a date appear in
non-decreasing tag order. -/
theorem C8_parse_loop_sorted (rs : List Record)
    (huni : (∀ r ∈ rs, r.rt.isSome = true) ∨ (∀ r ∈ rs, r.rt = none)) (i : Nat) :
    (loadTable (rs.take i)).Sorted dateKey ∧
      ((∀ r ∈ rs, r.rt.isSome = true) → (loadTable (rs.take i)).Sorted rtKey) := by
  rcases loadTable_cases (rs.take i) with hnil | ⟨t, r, hr, heq⟩
  · rw [hnil]
    exact ⟨List.sorted_nil, fun _ => List.sorted_nil⟩
  · have hrs : r ∈ rs := List.take_subset i rs hr
    rcases huni with hall | hnone
    · have hsome : r.rt.isSome = true := hall r hrs
      have hsorted : (loadTable (rs.take i)).Sorted rtKey := by
        rw [heq]
        exact parseStep_sorted_rt t r hsome
      exact ⟨sorted_rtKey_dateKey hsorted, fun _ => hsorted⟩
    · have hnr : r.rt = none := hnone r hrs
      refine ⟨?_, ?_⟩
      · rw [heq]
        exact parseStep_sorted_date t r hnr
      · intro hall
        have := hall r hrs
        rw [hnr] at this
        cases this

/-- First witness record for C8 (real-time, date 10, tag RT1). -/
def c8rec1 : Record :=
  ⟨"c_gls_NDVI300-RT1_202001100000_GLOBE_OLCI_V1.1.1", "m", "k1.nc", "y1", "OLCI", "1.1.1",
    some "RT1", 10⟩

/-- Second witness record for C8 (real-time, date 5, tag RT2). -/
def c8rec2 : Record :=
  ⟨"c_gls_NDVI300-RT2_202001050000_GLOBE_OLCI_V1.1.1", "m", "k2.nc", "y2", "OLCI", "1.1.1",
    some "RT2", 5⟩

/-- Third witness record for C8 (real-time, date 5, tag RT1). -/
def c8rec3 : Record :=
  ⟨"c_gls_NDVI300-RT1_202001050000_GLOBE_OLCI_V1.1.1", "m", "k3.nc", "y3", "OLCI", "1.1.1",
    some "RT1", 5⟩

/-- Witness for C8: a real-time manifest arriving out of date order;
the invariant is instantiated at the intermediate state after the
second appended record (`take 2`). -/
theorem C8_parse_loop_sorted_witness :
    (loadTable ([c8rec1, c8rec2, c8rec3].take 2)).Sorted dateKey ∧
      ((∀ r ∈ [c8rec1, c8rec2, c8rec3], r.rt.isSome = true) →
        (loadTable ([c8rec1, c8rec2, c8rec3].take 2)).Sorted rtKey) :=
  C8_parse_loop_sorted [c8rec1, c8rec2, c8rec3] (Or.inl (by decide)) 2

/-- C9 (amended): splitting a manifest line on `/` yields a local
sub-path equal to the SEVEN segments immediately preceding the final
segment — a window that ends with the product-name segment — joined
with the platform path separator; a product name equal to the
second-to-last segment; and a fileName equal to the last segment;
splitting the name on `_` yields sensor equal to the second-to-last
token and version equal to the last 5 characters of the last token. -/
theorem C9_parse_fields (line : String) (dateVal : Nat) (p : List String)
    (s1 s2 s3 s4 s5 s6 s7 f : String)
    (hsplit : pySplit line '/' = p ++ [s1, s2, s3, s4, s5, s6, s7, f])
    (q : List String) (tk1 tk2 : String)
    (hname : pySplit s7 '_' = q ++ [tk1, tk2]) :
    (parseLine line dateVal).int_path =
      String.intercalate pathSep [s1, s2, s3, s4, s5, s6, s7] ∧
    (parseLine line dateVal).name = s7 ∧
    (parseLine line dateVal).file_name = f ∧
    (parseLine line dateVal).sensor = tk1 ∧
    (parseLine line dateVal).version = pyTakeRight tk2 5 := by
  have hE : pySplit line '/' = (p ++ [s1, s2, s3, s4, s5, s6, s7]) ++ [f] := by
    rw [hsplit]
    simp
  have hdropE : (pySplit line '/').dropLast = p ++ [s1, s2, s3, s4, s5, s6, s7] := by
    rw [hE, List.dropLast_concat]
  have hlenE : (pySplit line '/').length = p.length + 8 := by
    rw [hsplit]
    simp
  have hlastE : (pySplit line '/').getLastD "" = f := by
    rw [hE, List.getLastD_concat]
  have hnameEq : ((pySplit line '/').dropLast).getLastD "" = s7 := by
    rw [hdropE]
    have h7 : p ++ [s1, s2, s3, s4, s5, s6, s7] = (p ++ [s1, s2, s3, s4, s5, s6]) ++ [s7] := by
      simp
    rw [h7, List.getLastD_concat]
  have hN : pySplit s7 '_' = (q ++ [tk1]) ++ [tk2] := by
    rw [hname]
    simp
  have hdropN : (pySplit s7 '_').dropLast = q ++ [tk1] := by
    rw [hN, List.dropLast_concat]
  have hlastN : (pySplit s7 '_').getLastD "" = tk2 := by
    rw [hN, List.getLastD_concat]
  have hsensor : ((pySplit s7 '_').dropLast).getLastD "" = tk1 := by
    rw [hdropN, List.getLastD_concat]
  have hdrop8 : ((pySplit line '/').dropLast).drop ((pySplit line '/').length - 8) =
      [s1, s2, s3, s4, s5, s6, s7] := by
    rw [hdropE, hlenE]
    have harith : p.length + 8 - 8 = p.length := by omega
    rw [harith, List.drop_left]
  refine ⟨?_, ?_, ?_, ?_, ?_⟩
  · show String.intercalate pathSep
        (((pySplit line '/').dropLast).drop ((pySplit line '/').length - 8)) =
      String.intercalate pathSep [s1, s2, s3, s4, s5, s6, s7]
    rw [hdrop8]
  · exact hnameEq
  · exact hlastE
  · show (((pySplit ((pySplit line '/').dropLast.getLastD "") '_').dropLast).getLastD "") = tk1
    rw [hnameEq]
    exact hsensor
  · show pyTakeRight ((pySplit ((pySplit line '/').dropLast.getLastD "") '_').getLastD "") 5 =
      pyTakeRight tk2 5
    rw [hnameEq, hlastN]

/-- Witness for the amended C9, instantiated at the same concrete
manifest line as the counterexample: all five parsed fields are as the
amended claim states them. -/
theorem C9_parse_fields_witness :
    (parseLine c9Line 5).int_path = String.intercalate pathSep
      ["s1", "s2", "s3", "2020", "01", "05",
       "c_gls_NDVI_202001050000_GLOBE_PROBAV_V2.0.1"] ∧
    (parseLine c9Line 5).name = "c_gls_NDVI_202001050000_GLOBE_PROBAV_V2.0.1" ∧
    (parseLine c9Line 5).file_name = "file.nc" ∧
    (parseLine c9Line 5).sensor = "PROBAV" ∧
    (parseLine c9Line 5).version = pyTakeRight "V2.0.1" 5 :=
  C9_parse_fields c9Line 5 ["https:", "land.copernicus.vgt.vito.be", "manifest"]
    "s1" "s2" "s3" "2020" "01" "05"
    "c_gls_NDVI_202001050000_GLOBE_PROBAV_V2.0.1" "file.nc" (by decide)
    ["c", "gls", "NDVI", "202001050000", "GLOBE"] "PROBAV" "V2.0.1" (by decide)

/-- `find?` over an append scans the left part first. -/
theorem find?_append_cases {α : Type} (p : α → Bool) (l1 l2 : List α) :
    (l1 ++ l2).find? p =
      (match l1.find? p with
       | some x => some x
       | none => l2.find? p) := by
  induction l1 with
  | nil => simp
  | cons x xs ih =>
    by_cases h : p x <;> simp [List.find?_cons, h, ih]

/-- After `drop_duplicates(subset=['date'], keep='last')` the dates are
pairwise distinct. -/
theorem dropDuplicatesKeepLast_dates_nodup (rows : List Record) :
    ((dropDuplicatesKeepLast rows).map Record.date).Nodup := by
  induction rows with
  | nil => simp [dropDuplicatesKeepLast]
  | cons r rs ih =>
    show ((if (dropDuplicatesKeepLast rs).any (fun x => x.date == r.date) then
        dropDuplicatesKeepLast rs else r :: dropDuplicatesKeepLast rs).map Record.date).Nodup
    by_cases h : (dropDuplicatesKeepLast rs).any (fun x => x.date == r.date) = true
    · rw [if_pos h]
      exact ih
    · rw [if_neg h]
      simp only [List.map_cons, List.nodup_cons]
      refine ⟨?_, ih⟩
      intro hmem
      rw [List.mem_map] at hmem
      obtain ⟨x, hx, hxd⟩ := hmem
      apply h
      rw [List.any_eq_true]
      exact ⟨x, hx, by simp [hxd]⟩

/-- `drop_duplicates(..., keep='last')` keeps, for every date present,
the most-recently-listed record of that date (the first hit of a
right-to-left search). -/
theorem dropDuplicatesKeepLast_keeps_last (rows : List Record) :
    ∀ r ∈ rows, rows.reverse.find? (fun x => x.date == r.date) = some r →
      r ∈ dropDuplicatesKeepLast rows := by
  induction rows with
  | nil => intro r hr; cases hr
  | cons a rs ih =>
    intro r _ hfind
    rw [List.reverse_cons, find?_append_cases] at hfind
    show r ∈ (if (dropDuplicatesKeepLast rs).any (fun x => x.date == a.date) then
        dropDuplicatesKeepLast rs else a :: dropDuplicatesKeepLast rs)
    cases hfx : rs.reverse.find? (fun x => x.date == r.date) with
    | some y =>
      rw [hfx] at hfind
      cases hfind
      have hyr : r ∈ rs := by
        have := List.mem_of_find?_eq_some hfx
        rwa [List.mem_reverse] at this
      have hmem : r ∈ dropDuplicatesKeepLast rs := ih r hyr hfx
      by_cases h : (dropDuplicatesKeepLast rs).any (fun x => x.date == a.date) = true
      · rwa [if_pos h]
      · rw [if_neg h]
        exact List.mem_cons_of_mem a hmem
    | none =>
      rw [hfx] at hfind
      simp only [List.find?_cons, List.find?_nil] at hfind
      by_cases hpa : (a.date == r.date) = true
      · rw [hpa] at hfind
        simp only [Option.some.injEq] at hfind
        subst hfind
        have hnone : ∀ x ∈ rs, (x.date == a.date) = false := by
          intro x hx
          have := List.find?_eq_none.mp hfx x (by rwa [List.mem_reverse])
          simpa using this
        have hany : (dropDuplicatesKeepLast rs).any (fun x => x.date == a.date) = false := by
          rw [List.any_eq_false]
          intro x hx
          have hxs : x ∈ rs := (dropDuplicatesKeepLast_sublist rs).subset hx
          simp [hnone x hxs]
        rw [if_neg (by simp [hany])]
        exact List.mem_cons_self a _
      · have hpa2 : (a.date == r.date) = false := by
          simpa using hpa
        rw [hpa2] at hfind
        cases hfind

/-- C10: on a real-time-schema collection (the branch whose table the
source mutates at lines 182-193), `download` with a single in-range
date transforms the collection state before resolving: the call
succeeds, and in the state it leaves behind — the state every
subsequent operation on the same `Collection` sees — the table has been
de-duplicated by date keeping the last-listed record (the surviving
rows are a sublist of the original rows, their dates are pairwise
distinct, and the last-listed record of every original date survives)
and `date` has been moved from the columns into the row index, with the
date-range cache filled in. -/
theorem C10_download_mutates_table (rows : List Record) (r0 rN : Record) (d : Nat)
    (hhead : (dropDuplicatesKeepLast rows).head? = some r0)
    (hlast : (dropDuplicatesKeepLast rows).getLast? = some rN)
    (hsd : r0.date ≤ d) (hed : d ≤ rN.date) :
    ∃ (tasks : List DownloadTask) (c2 : Collection),
      downloadResolve ⟨⟨true, false, rows⟩, none, none⟩ (Selector.single d) none =
        Except.ok (tasks, c2) ∧
      c2.table.hasRt = true ∧
      c2.table.dateIsIndex = true ∧
      c2.table.rows = dropDuplicatesKeepLast rows ∧
      List.Sublist c2.table.rows rows ∧
      (c2.table.rows.map Record.date).Nodup ∧
      (∀ r ∈ rows, rows.reverse.find? (fun x => x.date == r.date) = some r →
        r ∈ c2.table.rows) ∧
      c2.start_date = some r0.date ∧
      c2.end_date = some rN.date := by
  have hred : downloadResolve ⟨⟨true, false, rows⟩, none, none⟩ (Selector.single d) none =
      (match resolveOne ⟨true, true, dropDuplicatesKeepLast rows⟩ r0.date rN.date d with
       | Except.ok task =>
         Except.ok ([task], ⟨⟨true, true, dropDuplicatesKeepLast rows⟩,
           some r0.date, some rN.date⟩)
       | Except.error e => Except.error e) := by
    simp [downloadResolve, ObsTable.colNames, hhead, hlast]
  set rows2 := dropDuplicatesKeepLast rows with hrows2
  have hne : rows2 ≠ [] := fun h => by rw [h] at hhead; cases hhead
  have h0lt : 0 < rows2.length := List.length_pos.mpr hne
  have hr00 : rows2.get ⟨0, h0lt⟩ = r0 := by
    have h1 : rows2.get? 0 = some r0 := by
      rw [List.get?_zero]
      exact hhead
    rw [List.get?_eq_get h0lt, Option.some.injEq] at h1
    exact h1
  set c := (rows2.map (fun r => r.date)).countP (fun x => decide (x ≤ d)) with hc
  have hc1 : 0 < c := by
    have hlen2 : (rows2.map (fun r => r.date)).length = rows2.length := List.length_map _ _
    have hmem : (rows2.get ⟨0, h0lt⟩).date ∈ rows2.map (fun r => r.date) :=
      List.mem_map_of_mem (fun r => r.date) (rows2.get_mem 0 h0lt)
    rw [hc, List.countP_eq_length_filter]
    have : r0.date ∈ (rows2.map (fun r => r.date)).filter (fun x => decide (x ≤ d)) := by
      rw [List.mem_filter]
      refine ⟨?_, by simpa using hsd⟩
      rwa [hr00] at hmem
    have hlp := List.length_pos.mpr (List.ne_nil_of_mem this)
    omega
  have hcle : c ≤ rows2.length := by
    calc c ≤ (rows2.map (fun r => r.date)).length := List.countP_le_length _
      _ = rows2.length := List.length_map _ _
  have hi : c - 1 < rows2.length := by omega
  have hro : resolveOne ⟨true, true, rows2⟩ r0.date rN.date d =
      Except.ok ((rows2.get ⟨c - 1, hi⟩).toTask) := by
    simp only [resolveOne, if_pos (And.intro hsd hed)]
    have hff : ffillIndex (rows2.map (fun r => r.date)) d = (c : Int) - 1 := by
      simp only [ffillIndex, hc]
    rw [hff]
    have hj : ¬ ((c : Int) - 1 < 0) := by omega
    have htn : ((c : Int) - 1).toNat = c - 1 := by omega
    simp only [pyIlocGet, if_neg hj, htn]
    rw [List.get?_eq_get hi]
  refine ⟨[(rows2.get ⟨c - 1, hi⟩).toTask],
    ⟨⟨true, true, rows2⟩, some r0.date, some rN.date⟩, ?_, rfl, rfl, rfl, ?_, ?_, ?_, rfl, rfl⟩
  · rw [hred, hro]
  · exact dropDuplicatesKeepLast_sublist rows
  · exact dropDuplicatesKeepLast_dates_nodup rows
  · exact dropDuplicatesKeepLast_keeps_last rows

/-- First C10 witness row: date 5, tag RT0 — superseded by the next. -/
def c10rowA : Record :=
  ⟨"c_gls_SWI-RT0_202001050000_GLOBE_ASCAT_V3.1.1", "n", "s1.nc", "z1", "ASCAT", "3.1.1",
    some "RT0", 5⟩

/-- Second C10 witness row: date 5, tag RT1 — the last-listed day-5 row. -/
def c10rowB : Record :=
  ⟨"c_gls_SWI-RT1_202001050000_GLOBE_ASCAT_V3.1.1", "n", "s2.nc", "z2", "ASCAT", "3.1.1",
    some "RT1", 5⟩

/-- Third C10 witness row: date 10, tag RT0. -/
def c10rowC : Record :=
  ⟨"c_gls_SWI-RT0_202001100000_GLOBE_ASCAT_V3.1.1", "n", "s3.nc", "z3", "ASCAT", "3.1.1",
    some "RT0", 10⟩

/-- Witness for C10: a real-time table with a duplicated date; the
resolution call succeeds and leaves the collection holding the
de-duplicated, date-indexed two-row table. -/
theorem C10_download_mutates_table_witness :
    ∃ (tasks : List DownloadTask) (c2 : Collection),
      downloadResolve ⟨⟨true, false, [c10rowA, c10rowB, c10rowC]⟩, none, none⟩
          (Selector.single 7) none =
        Except.ok (tasks, c2) ∧
      c2.table.hasRt = true ∧
      c2.table.dateIsIndex = true ∧
      c2.table.rows = dropDuplicatesKeepLast [c10rowA, c10rowB, c10rowC] ∧
      List.Sublist c2.table.rows [c10rowA, c10rowB, c10rowC] ∧
      (c2.table.rows.map Record.date).Nodup ∧
      (∀ r ∈ [c10rowA, c10rowB, c10rowC],
        [c10rowA, c10rowB, c10rowC].reverse.find? (fun x => x.date == r.date) = some r →
          r ∈ c2.table.rows) ∧
      c2.start_date = some c10rowB.date ∧
      c2.end_date = some c10rowC.date :=
  C10_download_mutates_table [c10rowA, c10rowB, c10rowC] c10rowB c10rowC 7
    (by decide) (by decide) (by decide) (by decide)
